import Mathlib

/-!
Shallow embedding of the `dht` package facade (Config, New, join, listen,
FindNode, Run's maintenance tick) and of the `jsonrpc` response decoding
helpers (`getEnumVal`, `fixDecodeProto`), with theorems settling the
behavioural claims about them.

Go strings that carry raw binary data (node IDs, info-hash keys, datagrams)
are embedded as lists of bytes (`List Nat`, each element a byte value);
Go durations are embedded as integer nanosecond counts, mirroring
`time.Duration`.
-/

/-- Byte strings: the embedding of Go `string`/`[]byte` values holding raw
binary data. Each element is one byte (0..255). -/
abbrev ByteStr := List Nat

/-- Go `time.Second` as a nanosecond count. -/
def timeSecond : Nat := 1000000000

/-- Go `time.Minute` as a nanosecond count. -/
def timeMinute : Nat := 60 * timeSecond

/-- Modelled from the spec: identifiers (node IDs and info-hashes) are
fixed-width 160-bit opaque byte strings, so `nodeIDLength` — defined in a
repository file outside the provided sources — is 20 bytes. -/
def nodeIDLength : Nat := 20

/-- Embedding of Go `encoding/hex` decode failures: `hex.InvalidByteError`
(carrying the offending byte) and `hex.ErrLength`. -/
inductive HexError where
  | invalidByte (b : Nat)
  | errLength
deriving DecidableEq, Repr

/-- Embedding of Go `encoding/hex.fromHexChar`: the value of an ASCII hex
digit byte, or `none` for any other byte. -/
def fromHexChar (c : Nat) : Option Nat :=
  if 48 ≤ c ∧ c ≤ 57 then some (c - 48)
  else if 97 ≤ c ∧ c ≤ 102 then some (c - 97 + 10)
  else if 65 ≤ c ∧ c ≤ 70 then some (c - 65 + 10)
  else none

/-- Embedding of Go `hex.DecodeString`: consumes the input two hex-digit
bytes at a time, failing on the first non-hex byte, and failing with
`errLength` when a valid hex digit is left over at odd length. -/
def hexDecodeString : ByteStr → Except HexError ByteStr
  | [] => .ok []
  | [c] =>
    match fromHexChar c with
    | none => .error (.invalidByte c)
    | some _ => .error .errLength
  | a :: b :: rest =>
    match fromHexChar a with
    | none => .error (.invalidByte a)
    | some hi =>
      match fromHexChar b with
      | none => .error (.invalidByte b)
      | some lo =>
        match hexDecodeString rest with
        | .error e => .error e
        | .ok tail => .ok ((hi * 16 + lo) :: tail)

/-- Embedding of Go `hex.EncodeToString` for one nibble: lowercase hex
digit byte for a value below 16. -/
def hexDigitChar (n : Nat) : Nat :=
  if n < 10 then 48 + n else 97 + (n - 10)

/-- Embedding of Go `hex.EncodeToString`: each byte becomes its two
lowercase hex-digit bytes, high nibble first. -/
def hexEncode : ByteStr → ByteStr
  | [] => []
  | b :: rest => hexDigitChar (b / 16) :: hexDigitChar (b % 16) :: hexEncode rest

theorem hexEncode_length (bs : ByteStr) : (hexEncode bs).length = 2 * bs.length := by
  induction bs with
  | nil => rfl
  | cons b rest ih => simp [hexEncode, ih]; omega

theorem fromHexChar_hexDigitChar (n : Nat) (h : n < 16) :
    fromHexChar (hexDigitChar n) = some n := by
  unfold hexDigitChar fromHexChar
  by_cases h10 : n < 10
  · simp only [if_pos h10]
    rw [if_pos (by omega)]
    congr 1
    omega
  · simp only [if_neg h10]
    rw [if_neg (by omega), if_pos (by omega)]
    congr 1
    omega

theorem hexDecodeString_hexEncode (bs : ByteStr) (h : ∀ b ∈ bs, b < 256) :
    hexDecodeString (hexEncode bs) = .ok bs := by
  induction bs with
  | nil => rfl
  | cons b rest ih =>
    have hb : b < 256 := h b (by simp)
    have hrest : ∀ x ∈ rest, x < 256 := fun x hx => h x (by simp [hx])
    have hhi : b / 16 < 16 := by omega
    have hlo : b % 16 < 16 := by omega
    have hbyte : b / 16 * 16 + b % 16 = b := by omega
    simp only [hexEncode, hexDecodeString, fromHexChar_hexDigitChar _ hhi,
      fromHexChar_hexDigitChar _ hlo, ih hrest, hbyte]

/-- Placeholder for the Go callback type `func(string, string, int)` used by
the `OnGetPeers` / `OnAnnouncePeer` configuration hooks; only its presence
or absence is observable in the claims. -/
def Callback : Type := String → String → Int → Unit

/-- Embedding of the `Config` struct. Fields keep the Go names; absent
fields of a Go composite literal take the zero value, embedded as structure
defaults. Durations are nanosecond counts. -/
structure Config where
  K : Nat := 0
  Network : String := ""
  Address : String := ""
  PrimeNodes : List String := []
  KBucketExpiredAfter : Nat := 0
  NodeExpriedAfter : Nat := 0
  CheckKBucketPeriod : Nat := 0
  TokenExpiredAfter : Nat := 0
  MaxTransactionCursor : Nat := 0
  MaxNodes : Nat := 0
  OnGetPeers : Option Callback := none
  OnAnnouncePeer : Option Callback := none
  Try : Nat := 0
  PacketJobLimit : Nat := 0
  PacketWorkerLimit : Nat := 0
  RefreshNodeNum : Nat := 0

/-- Embedding of `NewStandardConfig`: the default configuration values. -/
def NewStandardConfig : Config :=
  { K := 8
    Network := "udp4"
    Address := ":4444"
    PrimeNodes := ["lbrynet1.lbry.io:4444", "lbrynet2.lbry.io:4444",
      "lbrynet3.lbry.io:4444"]
    NodeExpriedAfter := 15 * timeMinute
    KBucketExpiredAfter := 15 * timeMinute
    CheckKBucketPeriod := 30 * timeSecond
    TokenExpiredAfter := 10 * timeMinute
    MaxTransactionCursor := 4294967295
    MaxNodes := 5000
    Try := 2
    PacketJobLimit := 1024
    PacketWorkerLimit := 256
    RefreshNodeNum := 8 }

/-- The construction-time observable state of a `DHT` value built by `New`:
the configuration in effect and the capacities of the two bounded channels
(`packets` and `workerTokens`). The node's random identity and socket are
created separately and are not part of any claim. -/
structure DHTInit where
  config : Config
  packetsCap : Nat
  workerTokensCap : Nat

/-- Embedding of `New`: a nil config is replaced by `NewStandardConfig`;
the `packets` channel is created with capacity `PacketJobLimit` and the
`workerTokens` channel with capacity `PacketWorkerLimit`. (`newNode`
failure panics rather than returning, so no error value is modelled.) -/
def New (config : Option Config) : DHTInit :=
  match config with
  | none =>
    { config := NewStandardConfig
      packetsCap := NewStandardConfig.PacketJobLimit
      workerTokensCap := NewStandardConfig.PacketWorkerLimit }
  | some cfg =>
    { config := cfg
      packetsCap := cfg.PacketJobLimit
      workerTokensCap := cfg.PacketWorkerLimit }

/-- Embedding of a peer endpoint (`Peer`). Modelled from the spec: peer
records are transport endpoints announced for an info-hash; the struct
itself is defined in a repository file outside the provided sources. -/
structure Peer where
  ip : String
  port : Nat
deriving DecidableEq, Repr

/-- The error outcomes of `FindNode`: the `errors.New("dht not ready")`
guard and a hex decoding error passed through from `hex.DecodeString`. -/
inductive FindNodeError where
  | notReady
  | hexErr (e : HexError)
deriving DecidableEq, Repr

/-- The caller-visible outcome of one `FindNode` call together with the
side effects the claims are about: whether `hex.DecodeString` was reached,
whether `routingTable.GetNeighbors` was consulted, how many
`peersManager.GetPeers` calls were made, how many `find_node` queries were
sent, and how many one-second poll iterations ran. -/
structure FindNodeResult where
  result : Except FindNodeError (List Peer)
  decodeAttempted : Bool
  routingTableQueried : Bool
  getPeersCalls : Nat
  sentQueries : Nat
  polls : Nat
deriving Repr

/-- Embedding of the polling loop inside `FindNode`'s goroutine:
`i` starts at 0; each one-second tick increments `i`, re-reads
`GetPeers` (here the oracle `g`, indexed by the elapsed second), and
breaks when the result is non-empty or `i` has reached 30. Returns the
final `(i, peers)`. -/
def pollLoop (g : Nat → List Peer) (i : Nat) : Nat × List Peer :=
  if h : (g (i + 1)).length ≠ 0 ∨ 30 ≤ i + 1 then (i + 1, g (i + 1))
  else pollLoop g (i + 1)
termination_by 30 - i
decreasing_by
  rw [not_or] at h
  omega

/-- Embedding of the body of `FindNode` after the readiness check and key
normalization: the fast path returning already-stored peers, else the
goroutine that asks the routing table for neighbors (their number is the
oracle `numNeighbors`), sends one `find_node` per neighbor, and polls.
`g` is the oracle for `peersManager.GetPeers(key, dht.K)` indexed by the
elapsed second (0 = the initial fast-path read); `decoded` records whether
the key went through hex decoding on the way in. -/
def FindNodeReady (g : Nat → ByteStr → List Peer) (numNeighbors : Nat)
    (decoded : Bool) (key : ByteStr) : FindNodeResult :=
  if (g 0 key).length ≠ 0 then
    { result := .ok (g 0 key)
      decodeAttempted := decoded
      routingTableQueried := false
      getPeersCalls := 1
      sentQueries := 0
      polls := 0 }
  else
    { result := .ok (pollLoop (fun i => g i key) 0).2
      decodeAttempted := decoded
      routingTableQueried := true
      getPeersCalls := 1 + (pollLoop (fun i => g i key) 0).1
      sentQueries := numNeighbors
      polls := (pollLoop (fun i => g i key) 0).1 }

/-- Embedding of `FindNode`: fail fast when not `Ready`; a key of exactly
twice `nodeIDLength` is hex-decoded (a decode error is returned to the
caller); then stored peers are returned immediately if present, otherwise
the single fan-out round and poll loop run. -/
def FindNode (ready : Bool) (g : Nat → ByteStr → List Peer)
    (numNeighbors : Nat) (key : ByteStr) : FindNodeResult :=
  if !ready then
    { result := .error .notReady
      decodeAttempted := false
      routingTableQueried := false
      getPeersCalls := 0
      sentQueries := 0
      polls := 0 }
  else if key.length = nodeIDLength * 2 then
    match hexDecodeString key with
    | .error e =>
      { result := .error (.hexErr e)
        decodeAttempted := true
        routingTableQueried := false
        getPeersCalls := 0
        sentQueries := 0
        polls := 0 }
    | .ok data => FindNodeReady g numNeighbors true data
  else FindNodeReady g numNeighbors false key

/-- Embedding of a resolved UDP address (`net.UDPAddr`), abstract up to its
printable form. -/
structure UDPAddr where
  ip : String
  port : Nat
deriving DecidableEq, Repr

/-- One `find_node` query issued by `join`: the resolved address it was
sent through, whether the temporary node placeholder carried an ID, and
the lookup target. -/
structure JoinQuery where
  raddr : UDPAddr
  nodeHasID : Bool
  target : ByteStr
deriving DecidableEq, Repr

/-- Embedding of `join`: iterate over the configured prime-node addresses;
an address that fails `net.ResolveUDPAddr` (oracle `resolve`) is skipped
with `continue`; a resolved one gets a `find_node` through an ID-less
temporary node, targeting the local node's own ID. Returns the queries
issued, in order. -/
def join (resolve : String → Option UDPAddr) (selfID : ByteStr) :
    List String → List JoinQuery
  | [] => []
  | addr :: rest =>
    match resolve addr with
    | none => join resolve selfID rest
    | some raddr =>
      { raddr := raddr, nodeHasID := false, target := selfID } ::
        join resolve selfID rest

/-- What the maintenance-timer branch of `Run`'s select loop does on one
tick. -/
inductive TickAction where
  | rejoin
  | refreshBuckets
  | idle
deriving DecidableEq, Repr

/-- Embedding of the `case <-tick` branch of `Run`: an empty routing table
triggers `join`; otherwise a bucket refresh is launched (`go Fresh`) only
when no transactions are outstanding. -/
def runOnTick (routingTableLen transactionsLen : Nat) : TickAction :=
  if routingTableLen = 0 then .rejoin
  else if transactionsLen = 0 then .refreshBuckets
  else .idle

/-- A raw received datagram together with its source address, as queued on
`dht.packets`. -/
structure Packet where
  data : ByteStr
  raddr : UDPAddr
deriving DecidableEq, Repr

/-- One outcome of `conn.ReadFromUDP` inside `listen`'s goroutine: either
`n` bytes and a source address, or a read error. -/
inductive ReadResult where
  | ok (data : ByteStr) (raddr : UDPAddr)
  | err
deriving DecidableEq, Repr

/-- Embedding of `listen`'s read loop over a finite trace of read
outcomes: a read error just `continue`s (the body emits no log line); a
successful read enqueues `buff[:n]` — at most the 8192-byte buffer — as a
packet. Returns the enqueued packets and the log lines emitted by the
loop. -/
def listenLoop : List ReadResult → List Packet × List String
  | [] => ([], [])
  | .err :: rest => listenLoop rest
  | .ok d a :: rest =>
    ({ data := d.take 8192, raddr := a } :: (listenLoop rest).1,
      (listenLoop rest).2)

/-- Embedding of the dynamic `interface\x7b\x7d` values flowing through the
jsonrpc decode hook: a JSON string, a `json.Number` (carrying its literal
text), or one of the values the hook itself produces (`uint64`, `[]byte`,
an enum constant); `other` stands for every remaining dynamic type. -/
inductive GoData where
  | str (s : String)
  | num (s : String)
  | uint64V (n : Nat)
  | bytesV (s : String)
  | enumV (v : Int)
  | other
deriving DecidableEq, Repr

/-- Embedding of `getEnumVal`: type-assert the datum to a string (else
"expected a string"), then look it up in the enum's name→value map (else
"invalid enum key"). The Go function also returns 0 alongside each error;
callers read the value only on nil error, so the `Except` collapse is
faithful. -/
def getEnumVal (enum : String → Option Int) (data : GoData) : Except String Int :=
  match data with
  | .str s =>
    match enum s with
    | none => .error "invalid enum key"
    | some val => .ok val
  | _ => .error "expected a string"

/-- Embedding of Go `strconv.ParseInt(s, 10, 64)` digit accumulation: all
characters must be ASCII decimal digits. -/
def decDigitsAux : List Char → Nat → Option Nat
  | [], acc => some acc
  | c :: rest, acc =>
    if 48 ≤ c.toNat ∧ c.toNat ≤ 57 then
      decDigitsAux rest (acc * 10 + (c.toNat - 48))
    else none

/-- Embedding of `(json.Number).Int64`, i.e. Go
`strconv.ParseInt(s, 10, 64)`: optional sign, at least one decimal digit,
no other characters, value within the signed 64-bit range; `none` on any
failure. -/
def parseInt64 (s : String) : Option Int :=
  match s.data with
  | [] => none
  | c :: rest =>
    let core := if c = '+' ∨ c = '-' then rest else c :: rest
    let neg := c = '-'
    match core with
    | [] => none
    | _ =>
      match decDigitsAux core 0 with
      | none => none
      | some m =>
        let v : Int := if neg then -(m : Int) else (m : Int)
        if -(2 ^ 63) ≤ v ∧ v ≤ 2 ^ 63 - 1 then some v else none

/-- The destination types dispatched on by `fixDecodeProto`'s switch:
`uint64`, `[]byte`, any of the thirteen lbryschema enum destinations
(uniformly represented by the enum's name→value map, since each case is
the same `getEnumVal` call followed by a cast), and every other type. -/
inductive GoType where
  | uint64T
  | byteSliceT
  | enumT (enumValues : String → Option Int)
  | otherT

/-- Embedding of `fixDecodeProto`. For a `uint64` destination, a
`json.Number` is parsed with `Int64()` (error passed through), rejected
when negative ("must be unsigned int"), converted to `uint64` otherwise; a
non-number falls through the switch to `return data, nil`. For `[]byte`, a
string is converted; for an enum destination, `getEnumVal`'s error is
returned. The parse-error message stands in for the strconv error text. -/
def fixDecodeProto (dest : GoType) (data : GoData) : Except String GoData :=
  match dest with
  | .uint64T =>
    match data with
    | .num s =>
      match parseInt64 s with
      | none => .error "strconv.ParseInt: parsing"
      | some val =>
        if val < 0 then .error "must be unsigned int"
        else .ok (.uint64V val.toNat)
    | _ => .ok data
  | .byteSliceT =>
    match data with
    | .str s => .ok (.bytesV s)
    | _ => .ok data
  | .enumT m =>
    match getEnumVal m data with
    | .error e => .error e
    | .ok val => .ok (.enumV val)
  | .otherT => .ok data

theorem pollLoop_spec (g : Nat → List Peer) :
    ∀ n i, i < 30 → 30 - i ≤ n →
      i < (pollLoop g i).1 ∧ (pollLoop g i).1 ≤ 30 ∧
      (pollLoop g i).2 = g (pollLoop g i).1 ∧
      (∀ j, i < j → j < (pollLoop g i).1 → g j = []) ∧
      ((pollLoop g i).2 = [] → (pollLoop g i).1 = 30) := by
  intro n
  induction n with
  | zero => intro i h1 h2; omega
  | succ m ih =>
    intro i h1 h2
    rw [pollLoop]
    by_cases hc : (g (i + 1)).length ≠ 0 ∨ 30 ≤ i + 1
    · rw [dif_pos hc]
      refine ⟨by omega, by omega, rfl, fun j hj1 hj2 => absurd hj2 (by omega), ?_⟩
      intro hemp
      rcases hc with hc | hc
      · exfalso
        have hemp' : g (i + 1) = [] := hemp
        rw [hemp'] at hc
        simp at hc
      · show i + 1 = 30
        omega
    · rw [dif_neg hc]
      rw [not_or] at hc
      obtain ⟨hlen, hlt⟩ := hc
      have hg : g (i + 1) = [] := List.length_eq_zero.mp (not_not.mp hlen)
      have hi : i + 1 < 30 := by omega
      obtain ⟨a1, a2, a3, a4, a5⟩ := ih (i + 1) hi (by omega)
      refine ⟨by omega, a2, a3, ?_, a5⟩
      intro j hj1 hj2
      by_cases hje : j = i + 1
      · rw [hje]; exact hg
      · exact a4 j (by omega) hj2

/-- C1: when the Ready flag is false, FindNode returns the "dht not ready"
error at once — no hex decode is attempted, the peers manager and routing
table are never consulted, no query is sent, and no poll iteration runs. -/
theorem findNode_notReady (g : Nat → ByteStr → List Peer) (numNeighbors : Nat)
    (key : ByteStr) :
    FindNode false g numNeighbors key =
      { result := .error .notReady
        decodeAttempted := false
        routingTableQueried := false
        getPeersCalls := 0
        sentQueries := 0
        polls := 0 } := rfl

theorem findNodeReady_decoded_irrelevant (g : Nat → ByteStr → List Peer)
    (numNeighbors : Nat) (key : ByteStr) (d1 d2 : Bool) :
    (FindNodeReady g numNeighbors d1 key).result =
      (FindNodeReady g numNeighbors d2 key).result ∧
    (FindNodeReady g numNeighbors d1 key).routingTableQueried =
      (FindNodeReady g numNeighbors d2 key).routingTableQueried ∧
    (FindNodeReady g numNeighbors d1 key).getPeersCalls =
      (FindNodeReady g numNeighbors d2 key).getPeersCalls ∧
    (FindNodeReady g numNeighbors d1 key).sentQueries =
      (FindNodeReady g numNeighbors d2 key).sentQueries ∧
    (FindNodeReady g numNeighbors d1 key).polls =
      (FindNodeReady g numNeighbors d2 key).polls := by
  unfold FindNodeReady
  split <;> exact ⟨rfl, rfl, rfl, rfl, rfl⟩

/-- C2: a raw key of the identifier length and its hex encoding (of twice
that length) give identical caller-visible behaviour — the hex form
decodes back to the raw key and the rest of the call proceeds the same;
and a key of twice the identifier length that is not valid hex makes
FindNode return the decode error with no further action. -/
theorem findNode_hex_key_equiv (g : Nat → ByteStr → List Peer) (numNeighbors : Nat) :
    (∀ k : ByteStr, k.length = nodeIDLength → (∀ b ∈ k, b < 256) →
      (FindNode true g numNeighbors (hexEncode k)).result =
        (FindNode true g numNeighbors k).result ∧
      (FindNode true g numNeighbors (hexEncode k)).routingTableQueried =
        (FindNode true g numNeighbors k).routingTableQueried ∧
      (FindNode true g numNeighbors (hexEncode k)).getPeersCalls =
        (FindNode true g numNeighbors k).getPeersCalls ∧
      (FindNode true g numNeighbors (hexEncode k)).sentQueries =
        (FindNode true g numNeighbors k).sentQueries ∧
      (FindNode true g numNeighbors (hexEncode k)).polls =
        (FindNode true g numNeighbors k).polls) ∧
    (∀ (s : ByteStr) (e : HexError), s.length = nodeIDLength * 2 →
      hexDecodeString s = .error e →
      FindNode true g numNeighbors s =
        { result := .error (.hexErr e)
          decodeAttempted := true
          routingTableQueried := false
          getPeersCalls := 0
          sentQueries := 0
          polls := 0 }) := by
  constructor
  · intro k hlen hbytes
    have h40 : (hexEncode k).length = nodeIDLength * 2 := by
      rw [hexEncode_length, hlen]
      omega
    have hraw : ¬(k.length = nodeIDLength * 2) := by
      rw [hlen]
      simp [nodeIDLength]
    have hhex : FindNode true g numNeighbors (hexEncode k) =
        FindNodeReady g numNeighbors true k := by
      simp [FindNode, h40, hexDecodeString_hexEncode k hbytes]
    have hplain : FindNode true g numNeighbors k =
        FindNodeReady g numNeighbors false k := by
      simp [FindNode, hraw]
    rw [hhex, hplain]
    exact findNodeReady_decoded_irrelevant g numNeighbors k true false
  · intro s e hslen hserr
    simp [FindNode, hslen, hserr]

/-- Witness for the C2 theorem at a concrete key: the all-zero 20-byte key
and its 40-character hex encoding produce the same result. -/
theorem findNode_hex_key_equiv_witness :
    ((List.replicate 20 0 : ByteStr).length = nodeIDLength ∧
      ∀ b ∈ (List.replicate 20 0 : ByteStr), b < 256) ∧
    (FindNode true (fun _ _ => []) 0 (hexEncode (List.replicate 20 0))).result =
      (FindNode true (fun _ _ => []) 0 (List.replicate 20 0)).result :=
  ⟨⟨by decide, by decide⟩,
    ((findNode_hex_key_equiv (fun _ _ => []) 0).1 (List.replicate 20 0)
      (by decide) (by decide)).1⟩

/-- C3: when ready and the peers manager already holds peers for the key,
FindNode returns exactly those stored peers with no error, consults the
routing table never, sends no find_node query, and performs no poll. -/
theorem findNode_storedPeers (g : Nat → ByteStr → List Peer) (numNeighbors : Nat)
    (key : ByteStr) (hlen : key.length ≠ nodeIDLength * 2)
    (hpeers : (g 0 key).length ≠ 0) :
    FindNode true g numNeighbors key =
      { result := .ok (g 0 key)
        decodeAttempted := false
        routingTableQueried := false
        getPeersCalls := 1
        sentQueries := 0
        polls := 0 } := by
  simp [FindNode, FindNodeReady, hlen, hpeers]

/-- Witness for the C3 theorem: one stored peer is returned immediately
with no query and no polling. -/
theorem findNode_storedPeers_witness :
    (([] : ByteStr).length ≠ nodeIDLength * 2 ∧
      ((fun (_ : Nat) (_ : ByteStr) => [({ ip := "1.2.3.4", port := 80 } : Peer)]) 0
        ([] : ByteStr)).length ≠ 0) ∧
    FindNode true (fun _ _ => [({ ip := "1.2.3.4", port := 80 } : Peer)]) 3 [] =
      { result := .ok [{ ip := "1.2.3.4", port := 80 }]
        decodeAttempted := false
        routingTableQueried := false
        getPeersCalls := 1
        sentQueries := 0
        polls := 0 } :=
  ⟨⟨by decide, by decide⟩,
    findNode_storedPeers (fun _ _ => [{ ip := "1.2.3.4", port := 80 }]) 3 []
      (by decide) (by decide)⟩

/-- C4: when ready, with a well-formed raw key and no stored peers,
FindNode runs between 1 and 30 poll iterations, returns (with nil error)
the peers seen by the last poll, all earlier polls saw none (it returns as
soon as a poll finds peers), and when every poll in the 30-poll budget
finds nothing it returns the empty set with nil error after exactly 30
polls. -/
theorem findNode_polls_spec (g : Nat → ByteStr → List Peer) (numNeighbors : Nat)
    (key : ByteStr) (hlen : key.length ≠ nodeIDLength * 2)
    (h0 : g 0 key = []) :
    1 ≤ (FindNode true g numNeighbors key).polls ∧
    (FindNode true g numNeighbors key).polls ≤ 30 ∧
    (FindNode true g numNeighbors key).result =
      .ok (g (FindNode true g numNeighbors key).polls key) ∧
    (∀ j, 1 ≤ j → j < (FindNode true g numNeighbors key).polls →
      g j key = []) ∧
    ((FindNode true g numNeighbors key).polls < 30 → g (FindNode true g numNeighbors key).polls key ≠ []) ∧
    ((∀ j, 1 ≤ j → j ≤ 30 → g j key = []) →
      (FindNode true g numNeighbors key).polls = 30 ∧
      (FindNode true g numNeighbors key).result = .ok []) := by
  have hF : FindNode true g numNeighbors key =
      { result := .ok (pollLoop (fun i => g i key) 0).2
        decodeAttempted := false
        routingTableQueried := true
        getPeersCalls := 1 + (pollLoop (fun i => g i key) 0).1
        sentQueries := numNeighbors
        polls := (pollLoop (fun i => g i key) 0).1 } := by
    simp [FindNode, FindNodeReady, hlen, h0]
  obtain ⟨a1, a2, a3, a4, a5⟩ :=
    pollLoop_spec (fun i => g i key) 30 0 (by omega) (by omega)
  rw [hF]
  simp only []
  refine ⟨by omega, a2, by rw [a3], ?_, ?_, ?_⟩
  · intro j hj1 hj2
    exact a4 j (by omega) hj2
  · intro hlt hcontra
    have hnil : (pollLoop (fun i => g i key) 0).2 = [] := by rw [a3]; exact hcontra
    have h30 := a5 hnil
    omega
  · intro hall
    have hend : (pollLoop (fun i => g i key) 0).2 = [] := by
      rw [a3]
      exact hall _ (by omega) a2
    have h30 := a5 hend
    refine ⟨h30, ?_⟩
    rw [a3, h30]
    rw [hall 30 (by omega) (by omega)]

/-- Witness for the C4 theorem: with peers first appearing at the second
poll, the call polls at least once. -/
theorem findNode_polls_spec_witness :
    (([] : ByteStr).length ≠ nodeIDLength * 2 ∧
      (fun (i : Nat) (_ : ByteStr) =>
        if 2 ≤ i then [({ ip := "p", port := 1 } : Peer)] else []) 0 [] = []) ∧
    1 ≤ (FindNode true
      (fun (i : Nat) (_ : ByteStr) =>
        if 2 ≤ i then [({ ip := "p", port := 1 } : Peer)] else []) 0 []).polls :=
  ⟨⟨by decide, by decide⟩,
    (findNode_polls_spec
      (fun (i : Nat) (_ : ByteStr) =>
        if 2 ≤ i then [({ ip := "p", port := 1 } : Peer)] else []) 0 []
      (by decide) (by decide)).1⟩

theorem join_mem (resolve : String → Option UDPAddr) (selfID : ByteStr) :
    ∀ primeNodes q, q ∈ join resolve selfID primeNodes →
      q.nodeHasID = false ∧ q.target = selfID := by
  intro primeNodes
  induction primeNodes with
  | nil => intro q hq; simp [join] at hq
  | cons addr rest ih =>
    intro q hq
    cases hres : resolve addr
    · rw [join, hres] at hq
      exact ih q hq
    · rw [join, hres, List.mem_cons] at hq
      rcases hq with hq | hq
      · rw [hq]
        exact ⟨rfl, rfl⟩
      · exact ih q hq

theorem join_eq_filterMap (resolve : String → Option UDPAddr) (selfID : ByteStr)
    (primeNodes : List String) :
    join resolve selfID primeNodes =
      primeNodes.filterMap (fun a => (resolve a).map
        (fun r => { raddr := r, nodeHasID := false, target := selfID })) := by
  induction primeNodes with
  | nil => rfl
  | cons addr rest ih =>
    cases hres : resolve addr <;> simp [join, hres, ih]

/-- C5: join issues exactly one find_node per resolvable prime-node
address (in order), each through an ID-less temporary node targeting the
local node's own ID; unresolvable addresses are skipped without aborting
the iteration; and when no address resolves, join finishes having issued
nothing (it has no error outcome at all). -/
theorem join_spec (resolve : String → Option UDPAddr) (selfID : ByteStr)
    (primeNodes : List String) :
    join resolve selfID primeNodes =
      primeNodes.filterMap (fun a => (resolve a).map
        (fun r => { raddr := r, nodeHasID := false, target := selfID })) ∧
    (∀ q ∈ join resolve selfID primeNodes,
      q.nodeHasID = false ∧ q.target = selfID) ∧
    (join resolve selfID primeNodes).length =
      (primeNodes.filter (fun a => (resolve a).isSome)).length ∧
    ((∀ a ∈ primeNodes, resolve a = none) →
      join resolve selfID primeNodes = []) := by
  refine ⟨join_eq_filterMap resolve selfID primeNodes, join_mem resolve selfID primeNodes, ?_, ?_⟩
  · induction primeNodes with
    | nil => rfl
    | cons addr rest ih =>
      cases hres : resolve addr <;>
        simp [join, List.filter, hres, ih]
  · intro hnone
    rw [join_eq_filterMap]
    apply List.filterMap_eq_nil_iff.mpr
    intro a ha
    rw [hnone a ha]
    rfl

/-- Witness for the C5 theorem: a bootstrap list of three unresolvable
addresses makes join complete having issued no query at all. -/
theorem join_spec_witness :
    (∀ a ∈ ["lbrynet1.lbry.io:4444", "lbrynet2.lbry.io:4444",
        "lbrynet3.lbry.io:4444"],
      (fun (_ : String) => (none : Option UDPAddr)) a = none) ∧
    join (fun _ => none) []
      ["lbrynet1.lbry.io:4444", "lbrynet2.lbry.io:4444",
        "lbrynet3.lbry.io:4444"] = [] :=
  ⟨fun _ _ => rfl,
    (join_spec (fun _ => none) []
      ["lbrynet1.lbry.io:4444", "lbrynet2.lbry.io:4444",
        "lbrynet3.lbry.io:4444"]).2.2.2 (fun _ _ => rfl)⟩

/-- C6: on a maintenance tick, an empty routing table triggers a rejoin;
with a non-empty table a bucket refresh is triggered exactly when no
transactions are outstanding; with a non-empty table and outstanding
transactions the tick does neither. -/
theorem runOnTick_spec (routingTableLen transactionsLen : Nat) :
    (routingTableLen = 0 →
      runOnTick routingTableLen transactionsLen = .rejoin) ∧
    (routingTableLen ≠ 0 →
      (runOnTick routingTableLen transactionsLen = .refreshBuckets ↔
        transactionsLen = 0)) ∧
    (routingTableLen ≠ 0 → transactionsLen ≠ 0 →
      runOnTick routingTableLen transactionsLen = .idle) := by
  by_cases hr : routingTableLen = 0 <;> by_cases ht : transactionsLen = 0 <;>
    simp [runOnTick, hr, ht]

/-- Witness for the C6 theorem at concrete lengths: empty table rejoins;
busy non-empty table neither rejoins nor refreshes. -/
theorem runOnTick_spec_witness :
    runOnTick 0 5 = .rejoin ∧ runOnTick 3 0 = .refreshBuckets ∧
    runOnTick 3 2 = .idle :=
  ⟨(runOnTick_spec 0 5).1 rfl,
    ((runOnTick_spec 3 0).2.1 (by decide)).mpr rfl,
    (runOnTick_spec 3 2).2.2 (by decide) (by decide)⟩

/-- C7: a nil configuration is replaced by the standard defaults (K = 8,
udp4, ":4444", Try = 2, 10-minute token expiry, transaction cursor capped
at 2^32 - 1, job limit 1024, worker limit 256), and for every
configuration the packet queue capacity equals the configured job limit
and the worker-token pool capacity equals the configured worker limit. -/
theorem New_defaults :
    (New none).config.K = 8 ∧
    (New none).config.Network = "udp4" ∧
    (New none).config.Address = ":4444" ∧
    (New none).config.Try = 2 ∧
    (New none).config.TokenExpiredAfter = 10 * timeMinute ∧
    (New none).config.MaxTransactionCursor = 2 ^ 32 - 1 ∧
    (New none).config.PacketJobLimit = 1024 ∧
    (New none).config.PacketWorkerLimit = 256 ∧
    (New none).packetsCap = 1024 ∧
    (New none).workerTokensCap = 256 ∧
    ∀ oc : Option Config,
      (New oc).packetsCap = (New oc).config.PacketJobLimit ∧
      (New oc).workerTokensCap = (New oc).config.PacketWorkerLimit := by
  refine ⟨rfl, rfl, rfl, rfl, rfl, by decide, rfl, rfl, rfl, rfl, ?_⟩
  intro oc
  cases oc <;> exact ⟨rfl, rfl⟩

/-- C8 counterexample: at the concrete read trace consisting of one failed
read, the loop emits no log line at all — the listen loop's error branch
is a bare continue, so "the error is logged" is false on the code. -/
theorem listenLoop_no_logging_cex : (listenLoop [ReadResult.err]).2 = [] := rfl

/-- C8 (amended): a read error makes the loop silently continue with the
next read — no log line is ever emitted by the loop body and an error
never terminates processing of the remaining reads — and every
successfully read datagram, truncated to the 8192-byte buffer, is enqueued
onto the packet queue in order. -/
theorem listenLoop_spec (reads : List ReadResult) :
    (listenLoop reads).1 = reads.filterMap
      (fun r => match r with
        | .err => none
        | .ok d a => some { data := d.take 8192, raddr := a }) ∧
    (listenLoop reads).2 = [] := by
  induction reads with
  | nil => exact ⟨rfl, rfl⟩
  | cons r rest ih =>
    cases r <;> simp [listenLoop, ih.1, ih.2]

/-- C9: getEnumVal errors exactly when the datum is not a string or the
string is not a key of the enum map, and on a string that is a key it
returns that key's value with nil error. -/
theorem getEnumVal_spec (enum : String → Option Int) (data : GoData) :
    ((∃ e, getEnumVal enum data = .error e) ↔
      ((∀ s, data ≠ .str s) ∨ ∃ s, data = .str s ∧ enum s = none)) ∧
    (∀ s v, data = .str s → enum s = some v →
      getEnumVal enum data = .ok v) := by
  cases data with
  | str s =>
    cases henum : enum s with
    | none =>
      refine ⟨?_, ?_⟩
      · simp only [getEnumVal, henum]
        constructor
        · intro _
          exact Or.inr ⟨s, rfl, henum⟩
        · intro _
          exact ⟨"invalid enum key", rfl⟩
      · intro s' v heq hsome
        rw [GoData.str.injEq] at heq
        rw [heq] at henum
        rw [henum] at hsome
        exact absurd hsome (by simp)
    | some val =>
      refine ⟨?_, ?_⟩
      · simp only [getEnumVal, henum]
        constructor
        · intro ⟨e, he⟩
          exact absurd he (by simp)
        · intro h
          rcases h with h | ⟨s', hs', hnone⟩
          · exact absurd rfl (h s)
          · rw [GoData.str.injEq] at hs'
            rw [hs'] at henum
            rw [henum] at hnone
            exact absurd hnone (by simp)
      · intro s' v heq hsome
        rw [GoData.str.injEq] at heq
        subst heq
        rw [henum] at hsome
        simp only [getEnumVal, henum]
        rw [Option.some.injEq] at hsome
        rw [hsome]
  | num s => exact ⟨by simp [getEnumVal], by intro s' v heq; simp at heq⟩
  | uint64V n => exact ⟨by simp [getEnumVal], by intro s' v heq; simp at heq⟩
  | bytesV s => exact ⟨by simp [getEnumVal], by intro s' v heq; simp at heq⟩
  | enumV v => exact ⟨by simp [getEnumVal], by intro s' v heq; simp at heq⟩
  | other => exact ⟨by simp [getEnumVal], by intro s' v heq; simp at heq⟩

/-- Witness for the C9 theorem: a string key present in the map yields its
value with nil error. -/
theorem getEnumVal_spec_witness :
    ((GoData.str "a") = GoData.str "a" ∧
      (fun (_ : String) => (some 5 : Option Int)) "a" = some 5) ∧
    getEnumVal (fun _ => some 5) (GoData.str "a") = .ok 5 :=
  ⟨⟨rfl, rfl⟩, (getEnumVal_spec (fun _ => some 5) (GoData.str "a")).2 "a" 5 rfl rfl⟩

/-- C10: with destination type uint64, a json.Number that fails 64-bit
integer parsing yields that error, a parsed negative value yields the
"must be unsigned int" error, a parsed non-negative value yields the
corresponding uint64, and any non-number datum is returned unchanged with
nil error. -/
theorem fixDecodeProto_uint64_spec (data : GoData) :
    (∀ s, data = .num s →
      (parseInt64 s = none →
        fixDecodeProto .uint64T data = .error "strconv.ParseInt: parsing") ∧
      (∀ v, parseInt64 s = some v → v < 0 →
        fixDecodeProto .uint64T data = .error "must be unsigned int") ∧
      (∀ v, parseInt64 s = some v → 0 ≤ v →
        fixDecodeProto .uint64T data = .ok (.uint64V v.toNat))) ∧
    ((∀ s, data ≠ .num s) → fixDecodeProto .uint64T data = .ok data) := by
  cases data with
  | num s =>
    refine ⟨?_, ?_⟩
    · intro s' heq
      rw [GoData.num.injEq] at heq
      subst heq
      refine ⟨?_, ?_, ?_⟩
      · intro hnone
        simp [fixDecodeProto, hnone]
      · intro v hsome hneg
        simp [fixDecodeProto, hsome, hneg]
      · intro v hsome hpos
        have : ¬(v < 0) := by omega
        simp [fixDecodeProto, hsome, this]
    · intro hne
      exact absurd rfl (hne s)
  | str s => exact ⟨by intro s' heq; simp at heq, fun _ => rfl⟩
  | uint64V n => exact ⟨by intro s' heq; simp at heq, fun _ => rfl⟩
  | bytesV s => exact ⟨by intro s' heq; simp at heq, fun _ => rfl⟩
  | enumV v => exact ⟨by intro s' heq; simp at heq, fun _ => rfl⟩
  | other => exact ⟨by intro s' heq; simp at heq, fun _ => rfl⟩

/-- Witness for the C10 theorem: the json.Number 5 decodes to uint64 5. -/
theorem fixDecodeProto_uint64_spec_witness :
    (GoData.num "5" = GoData.num "5" ∧ parseInt64 "5" = some 5 ∧
      (0 : Int) ≤ 5) ∧
    fixDecodeProto .uint64T (.num "5") = .ok (.uint64V 5) :=
  ⟨⟨rfl, by decide, by decide⟩,
    ((fixDecodeProto_uint64_spec (.num "5")).1 "5" rfl).2.2 5 (by decide) (by decide)⟩
